import Mathlib

/-!
# Verification of the rye-init process-supervision core

Shallow embedding of the rye-init sources (`src/main.rs`, `src/bootlogd.rs`)
and proofs about them.

Modelling conventions:
* Rust `String` values are embedded as `List Char`; the byte streams of the
  state-transfer protocol are likewise `List Char` (one element per byte;
  exact for ASCII data, which the protocol's tokens and the well-formedness
  hypotheses below restrict to).
* Rust `i32` is embedded as `Int`, `u32`/`u64`/`usize` as `Nat`.
* The `bitflags` set `ChildFlags` is embedded as a structure of `Bool`s,
  one per named bit.
* The intrusive `next` linked list of `Child` is embedded as `List Child`
  in `InitState.family`; the unused `new` shadow pointer is omitted.
* Fallible reads are embedded over explicit input lists: end of list is end
  of stream, which the source treats as a non-error.
-/

/-! ## Constants (src/main.rs) -/

def MAXSPAWN : Nat := 10
def TESTTIME : Nat := 120
def SLEEPTIME : Nat := 300
def WAIT_BETWEEN_SIGNALS : Nat := 3
def INITTAB_ID : Nat := 8
def RUNLEVEL_LENGTH : Nat := 12
def ACTION_LENGTH : Nat := 33
def PROCESS_LENGTH : Nat := 512
def NO_PROCESS : Int := 0
def RINGBUF_SIZE : Nat := 32768

/-- The crate version string written by `send_state` as the `VER` line. -/
def VERSION : List Char := "0.1.0".toList

/-! ## InitAction (src/main.rs, `enum InitAction`) -/

inductive InitAction where
  | respawn
  | wait
  | once
  | boot
  | bootwait
  | powerfail
  | powerwait
  | powerokwait
  | ctrlaltdel
  | off
  | ondemand
  | initdefault
  | sysinit
  | powerfailnow
  | kbrequest
deriving DecidableEq

/-- ASCII lowercasing, the relevant fragment of Rust `str::to_lowercase` for
comparison against the all-ASCII action keywords. -/
def asciiLower (c : Char) : Char :=
  if 'A' ≤ c ∧ c ≤ 'Z' then Char.ofNat (c.toNat + 32) else c

/-- The fixed keyword set of `InitAction::from_str`, in match order. -/
def ACTION_KEYWORDS : List (List Char × InitAction) :=
  [("respawn".toList, .respawn),
   ("wait".toList, .wait),
   ("once".toList, .once),
   ("boot".toList, .boot),
   ("bootwait".toList, .bootwait),
   ("powerfail".toList, .powerfail),
   ("powerwait".toList, .powerwait),
   ("powerokwait".toList, .powerokwait),
   ("ctrlaltdel".toList, .ctrlaltdel),
   ("off".toList, .off),
   ("ondemand".toList, .ondemand),
   ("initdefault".toList, .initdefault),
   ("sysinit".toList, .sysinit),
   ("powerfailnow".toList, .powerfailnow),
   ("kbrequest".toList, .kbrequest)]

/-- Embeds `InitAction::from_str`: lowercase the input and match it against the
fixed keyword set (the Rust `match` tries the same patterns in the same
order); anything else is `none`. -/
def InitAction.fromStr (s : List Char) : Option InitAction :=
  (ACTION_KEYWORDS.find? (fun p => p.1 == s.map asciiLower)).map (fun p => p.2)

/-- The keyword `send_state` writes on the `AC ` line for each action
(the `match child.action` table in `send_state`). -/
def actionName : InitAction → List Char
  | .respawn => "respawn".toList
  | .wait => "wait".toList
  | .once => "once".toList
  | .boot => "boot".toList
  | .bootwait => "bootwait".toList
  | .powerfail => "powerfail".toList
  | .powerwait => "powerwait".toList
  | .powerokwait => "powerokwait".toList
  | .ctrlaltdel => "ctrlaltdel".toList
  | .off => "off".toList
  | .ondemand => "ondemand".toList
  | .initdefault => "initdefault".toList
  | .sysinit => "sysinit".toList
  | .powerfailnow => "powerfailnow".toList
  | .kbrequest => "kbrequest".toList

/-! ## ChildFlags (src/main.rs, `bitflags! ChildFlags`), one Bool per bit:
RUNNING=2, KILLME=4, DEMAND=8, FAILING=16, WAITING=32, ZOMBIE=64, XECUTED=128. -/

structure ChildFlags where
  running : Bool
  killme : Bool
  demand : Bool
  failing : Bool
  waiting : Bool
  zombie : Bool
  xecuted : Bool
deriving DecidableEq

def ChildFlags.empty : ChildFlags :=
  ⟨false, false, false, false, false, false, false⟩

/-! ## Child (src/main.rs, `struct Child`) -/

structure Child where
  flags : ChildFlags
  exstat : Int
  pid : Int
  tm : Nat
  count : Nat
  id : List Char
  rlevel : List Char
  action : InitAction
  process : List Char
deriving DecidableEq

/-- Embeds `Child::new()`; `now` stands for the `SystemTime::now()` timestamp. -/
def Child.new (now : Nat) : Child :=
  { flags := ChildFlags.empty
    exstat := 0
    pid := NO_PROCESS
    tm := now
    count := 0
    id := []
    rlevel := []
    action := .once
    process := [] }

/-- Split a character list at every `:`; `n` separators yield `n + 1` parts
(the semantics of Rust `line.split(':').collect()`). -/
def splitColon : List Char → List (List Char)
  | [] => [[]]
  | c :: rest =>
    if c = ':' then [] :: splitColon rest
    else
      match splitColon rest with
      | [] => [[c]]
      | p :: ps => (c :: p) :: ps

/-- Embeds `Child::from_inittab_line`: exactly four `:`-separated fields, length
limits, action keyword lookup; any failure yields `none`. -/
def Child.from_inittab_line (now : Nat) (line : List Char) : Option Child :=
  match splitColon line with
  | [id, runlevels, action_str, process] =>
    if id.length > INITTAB_ID ∨ runlevels.length > RUNLEVEL_LENGTH ∨
        action_str.length > ACTION_LENGTH ∨ process.length > PROCESS_LENGTH then
      none
    else
      match InitAction.fromStr action_str with
      | none => none
      | some action =>
        some { flags := ChildFlags.empty
               exstat := 0
               pid := NO_PROCESS
               tm := now
               count := 0
               id := id
               rlevel := runlevels
               action := action
               process := process }
  | _ => none

/-! ## InitState (src/main.rs, `struct InitState`); the fields the verified
operations touch (console_dev, pipe_fd, myname, oops_error are omitted). -/

structure InitState where
  family : List Child
  wrote_wtmp_reboot : Bool
  wrote_utmp_reboot : Bool
  wrote_wtmp_rlevel : Bool
  wrote_utmp_rlevel : Bool
  curlevel : Char
  prevlevel : Char
  dfl_level : Char
  emerg_shell : Bool
  sleep_time : Nat
  did_boot : Bool
  reload : Bool
deriving DecidableEq

/-- Embeds `InitState::new()`. -/
def InitState.new : InitState :=
  { family := []
    wrote_wtmp_reboot := true
    wrote_utmp_reboot := true
    wrote_wtmp_rlevel := true
    wrote_utmp_rlevel := true
    curlevel := 'S'
    prevlevel := 'N'
    dfl_level := '0'
    emerg_shell := false
    sleep_time := WAIT_BETWEEN_SIGNALS
    did_boot := false
    reload := false }

/-- Embeds `InitState::add_child`: the new child is linked at the head of `family`;
there is no collision check and no failure path. -/
def InitState.add_child (st : InitState) (child : Child) : InitState :=
  { st with family := child :: st.family }

/-- Embeds `InitState::find_child_by_id`: first entry of `family` with the given id. -/
def InitState.find_child_by_id (st : InitState) (id : List Char) : Option Child :=
  st.family.find? (fun ch => ch.id == id)

/-- Embeds `InitState::find_child_by_pid`. -/
def InitState.find_child_by_pid (st : InitState) (pid : Int) : Option Child :=
  st.family.find? (fun ch => ch.pid == pid)

/-! ## Runlevel validation (src/main.rs) -/

/-- Embeds `is_valid_runlevel`: `matches!(c, '0'..='6' | 'S' | 's' | 'A'..='C' | 'a'..='c')`. -/
def is_valid_runlevel (c : Char) : Bool :=
  (decide ('0' ≤ c) && decide (c ≤ '6')) || c == 'S' || c == 's' ||
    (decide ('A' ≤ c) && decide (c ≤ 'C')) || (decide ('a' ≤ c) && decide (c ≤ 'c'))

/-- Embeds `normalize_runlevel`. -/
def normalize_runlevel (c : Char) : Char :=
  if c = 's' then 'S'
  else if c = 'a' then 'A'
  else if c = 'b' then 'B'
  else if c = 'c' then 'C'
  else c

/-- Embeds `create_emergency_shell`; `now` stands for `SystemTime::now()`. -/
def create_emergency_shell (now : Nat) : Child :=
  { flags := { ChildFlags.empty with waiting := true }
    exstat := 0
    pid := NO_PROCESS
    tm := now
    count := 0
    id := "~~".toList
    rlevel := "S".toList
    action := .once
    process := "/sbin/sulogin".toList }

/-! ## RingBuf (src/bootlogd.rs); `buf` is embedded as a function from index
to byte, since only the index arithmetic is observable through the verified
operations. -/

structure RingBuf where
  buf : Nat → Nat
  in_idx : Nat
  out_idx : Nat

/-- Embeds `RingBuf::new()`. -/
def RingBuf.new : RingBuf :=
  { buf := fun _ => 0, in_idx := 0, out_idx := 0 }

/-- Embeds `RingBuf::push`: writes `min(data.len, space)` bytes at `in_idx`, where
`space` is `RINGBUF_SIZE - in_idx` when `in_idx >= out_idx` and
`out_idx - in_idx` otherwise; returns the updated buffer and the count written. -/
def RingBuf.push (rb : RingBuf) (data : List Nat) : RingBuf × Nat :=
  let space : Nat :=
    if rb.out_idx ≤ rb.in_idx then RINGBUF_SIZE - rb.in_idx else rb.out_idx - rb.in_idx
  let to_write := min data.length space
  if to_write = 0 then (rb, 0)
  else
    ({ buf := fun i =>
         if rb.in_idx ≤ i ∧ i < rb.in_idx + to_write then data.getD (i - rb.in_idx) 0
         else rb.buf i
       in_idx := (rb.in_idx + to_write) % RINGBUF_SIZE
       out_idx := rb.out_idx },
     to_write)

/-- Embeds `RingBuf::advance_out`. -/
def RingBuf.advance_out (rb : RingBuf) (length : Nat) : RingBuf :=
  { rb with out_idx := (rb.out_idx + length) % RINGBUF_SIZE }

/-- Embeds `RingBuf::available`. -/
def RingBuf.available (rb : RingBuf) : Nat :=
  if rb.out_idx ≤ rb.in_idx then rb.in_idx - rb.out_idx
  else RINGBUF_SIZE - rb.in_idx + rb.out_idx

/-- Embeds `RingBuf::get_slice`: the contiguous readable bytes starting at `out_idx`. -/
def RingBuf.get_slice (rb : RingBuf) : List Nat :=
  if rb.out_idx ≤ rb.in_idx then
    (List.range (rb.in_idx - rb.out_idx)).map (fun k => rb.buf (rb.out_idx + k))
  else
    (List.range (RINGBUF_SIZE - rb.out_idx)).map (fun k => rb.buf (rb.out_idx + k))

/-! ## State-transfer stream primitives (src/main.rs) -/

/-- Embeds `get_string`: read single bytes until the first newline (consumed, not
included), until `max_size` characters are accumulated, or until end of
stream; returns the accumulated string and the unread remainder. End of
stream is not an error (the source maps `UnexpectedEof` to a normal stop). -/
def get_string : Nat → List Char → List Char × List Char
  | 0, s => ([], s)
  | _ + 1, [] => ([], [])
  | n + 1, c :: rest =>
    if c = '\n' then ([], rest)
    else
      let r := get_string n rest
      (c :: r.1, r.2)

/-- Embeds `get_void`: read and discard bytes up to and including the next newline;
`true` when a newline was found, `false` on end of stream (not an error). -/
def get_void : List Char → Bool × List Char
  | [] => (false, [])
  | c :: rest => if c = '\n' then (true, rest) else get_void rest

/-- Tokens of the state parser (`enum StateToken`).  `endTok` is `End`,
`recTok` is `Rec` (renamed because `end` is reserved and `rec` collides with
the auto-generated recursor); the negative-valued globals keep their names. -/
inductive StateToken where
  | verTok
  | endTok
  | recTok
  | eorTok
  | levTok
  | flagTok
  | actionTok
  | processTok
  | pidTok
  | exsTok
  | eofTok
  | runlevelTok
  | thisLevelTok
  | prevLevelTok
  | gotSignTok
  | wroteWtmpRebootTok
  | wroteUtmpRebootTok
  | slTimeTok
  | didBootTok
  | wroteWtmpRlevelTok
  | wroteUtmpRlevelTok
deriving DecidableEq

/-- Embeds `STATE_COMMANDS`: the three-character command names and their tokens. -/
def STATE_COMMANDS : List (List Char × StateToken) :=
  [("VER".toList, .verTok),
   ("END".toList, .endTok),
   ("REC".toList, .recTok),
   ("EOR".toList, .eorTok),
   ("LEV".toList, .levTok),
   ("FL ".toList, .flagTok),
   ("AC ".toList, .actionTok),
   ("CMD".toList, .processTok),
   ("PID".toList, .pidTok),
   ("EXS".toList, .exsTok),
   ("-RL".toList, .runlevelTok),
   ("-TL".toList, .thisLevelTok),
   ("-PL".toList, .prevLevelTok),
   ("-SI".toList, .gotSignTok),
   ("-WR".toList, .wroteWtmpRebootTok),
   ("-WU".toList, .wroteUtmpRebootTok),
   ("-ST".toList, .slTimeTok),
   ("-DB".toList, .didBootTok),
   ("-LW".toList, .wroteWtmpRlevelTok),
   ("-LU".toList, .wroteUtmpRlevelTok)]

/-- Look a three-character command name up in `STATE_COMMANDS`; unrecognized
names yield `Eof`, exactly as the fall-through in `get_cmd` does. -/
def lookupCmd (k : List Char) : StateToken :=
  match STATE_COMMANDS.find? (fun p => p.1 == k) with
  | some p => p.2
  | none => .eofTok

/-- Embeds `get_cmd`: read exactly three bytes and look them up; a short read (end
of stream) and an unrecognized name both yield `Eof` without error. -/
def get_cmd : List Char → StateToken × List Char
  | a :: b :: c :: rest => (lookupCmd [a, b, c], rest)
  | s => (.eofTok, s)

/-! ## Decimal rendering and parsing for the numeric wire values -/

/-- Digit characters, most significant first, accumulated onto `acc`; the
fuel argument only needs to dominate the digit count. -/
def natDigitsAux : Nat → Nat → List Char → List Char
  | 0, _, acc => acc
  | fuel + 1, n, acc =>
    if n = 0 then acc
    else natDigitsAux fuel (n / 10) (Nat.digitChar (n % 10) :: acc)

/-- Decimal rendering of a `Nat`, as Rust `{}` formatting produces it. -/
def natToChars (n : Nat) : List Char :=
  if n = 0 then ['0'] else natDigitsAux (n + 1) n []

/-- Decimal rendering of an `Int`, as Rust `{}` formatting produces it. -/
def intToChars (i : Int) : List Char :=
  if i < 0 then '-' :: natToChars i.natAbs else natToChars i.toNat

/-- Fold decimal digits onto an accumulator (the decoder's number parser). -/
def parseNatAux : List Char → Nat → Nat
  | [], acc => acc
  | c :: rest, acc => parseNatAux rest (acc * 10 + (c.toNat - 48))

def parseNat (l : List Char) : Nat := parseNatAux l 0

def parseInt (l : List Char) : Int :=
  match l with
  | [] => 0
  | c :: rest => if c = '-' then -(parseNat rest : Int) else (parseNat (c :: rest) : Int)

/-! ## send_state (src/main.rs): the state-transfer encoder -/

/-- One wire line written onto the front of the rest of the stream: the
three-character command name, the value, a newline, then the continuation
(mirroring the sequential `writeln!` calls of `send_state`). -/
def sline (tok val rest : List Char) : List Char := tok ++ (val ++ ('\n' :: rest))

/-- Renders a boolean as `"1"`/`"0"`, as `send_state` does. -/
def boolChar (b : Bool) : List Char := if b then ['1'] else ['0']

/-- One conditional `FL ` line: written only when the flag bit is set
(the `FLAG_MAPPINGS` loop of `send_state`). -/
def flagLine (b : Bool) (name rest : List Char) : List Char :=
  if b then sline ['F', 'L', ' '] name rest else rest

/-- The per-child record of `send_state`: `REC id`, `LEV rlevel`, one `FL `
line per set flag in `FLAG_MAPPINGS` order (RU, DE, XD, WT — KILLME, FAILING
and ZOMBIE have no mapping and are never written), `PID`, `EXS`, `AC `,
`CMD`, `EOR`. -/
def encode_child (c : Child) (rest : List Char) : List Char :=
  sline ['R', 'E', 'C'] c.id
    (sline ['L', 'E', 'V'] c.rlevel
      (flagLine c.flags.running ['R', 'U']
        (flagLine c.flags.demand ['D', 'E']
          (flagLine c.flags.xecuted ['X', 'D']
            (flagLine c.flags.waiting ['W', 'T']
              (sline ['P', 'I', 'D'] (intToChars c.pid)
                (sline ['E', 'X', 'S'] (intToChars c.exstat)
                  (sline ['A', 'C', ' '] (actionName c.action)
                    (sline ['C', 'M', 'D'] c.process
                      (sline ['E', 'O', 'R'] [] rest))))))))))

/-- The `family` loop of `send_state`, in list order. -/
def encode_children : List Child → List Char → List Char
  | [], rest => rest
  | c :: cs, rest => encode_child c (encode_children cs rest)

/-- Embeds `send_state`: the global lines (`VER`, `-RL`, `-TL` — written with
`curlevel`, `-PL`, `-SI`, `-WR`, `-WU`, `-ST`, `-DB`; `-LW` and `-LU` are
never written), then every `family` record in list order, then `END`.
`gs` stands for the `got_signals()` atomic read. -/
def send_state (gs : Bool) (st : InitState) : List Char :=
  sline ['V', 'E', 'R'] VERSION
    (sline ['-', 'R', 'L'] [st.curlevel]
      (sline ['-', 'T', 'L'] [st.curlevel]
        (sline ['-', 'P', 'L'] [st.prevlevel]
          (sline ['-', 'S', 'I'] (boolChar gs)
            (sline ['-', 'W', 'R'] (boolChar st.wrote_wtmp_reboot)
              (sline ['-', 'W', 'U'] (boolChar st.wrote_utmp_reboot)
                (sline ['-', 'S', 'T'] (natToChars st.sleep_time)
                  (sline ['-', 'D', 'B'] (boolChar st.did_boot)
                    (encode_children st.family
                      (sline ['E', 'N', 'D'] [] []))))))))))

/-! ## The state-transfer decoder

Modelled from the spec: the decode loop itself is not in src/ (only its
reader primitives `get_cmd`, `get_string`, `get_void` are), so the loop is
modelled from §4.5 of the spec on top of those primitives. It is
line-oriented and driven by the src-embedded `get_cmd`; the remainder of
each recognized line is read as the value (the spec bounds every value,
and on such lines the source's `get_string` with an ample bound reads
exactly the same characters). When `get_cmd` reports `Eof` — an
unrecognized name, or a short read — the loop discards the rest of that
line with the src-embedded `get_void`: if `get_void` finds a newline, only
the line's remainder was skipped and decoding continues with the next line
(the spec's forward compatibility); if it reports end of stream instead,
decoding terminates without an error. `END` terminates normally, and a
missing `END` simply means the stream runs out. Decoding never fails:
whatever was decoded so far is returned. -/

/-- The globals and entries recovered by the decoder; defaults are those of
`InitState::new()`. -/
structure DecodeRes where
  version : List Char
  runlevel : Char
  curlevel : Char
  prevlevel : Char
  gotSign : Bool
  wrote_wtmp_reboot : Bool
  wrote_utmp_reboot : Bool
  wrote_wtmp_rlevel : Bool
  wrote_utmp_rlevel : Bool
  sleep_time : Nat
  did_boot : Bool
  entries : List Child
deriving DecidableEq

/-- Modelled from the spec: initial decoder state, the `InitState::new()`
defaults with no entries. -/
def initDecodeRes : DecodeRes :=
  { version := []
    runlevel := 'S'
    curlevel := 'S'
    prevlevel := 'N'
    gotSign := false
    wrote_wtmp_reboot := true
    wrote_utmp_reboot := true
    wrote_wtmp_rlevel := true
    wrote_utmp_rlevel := true
    sleep_time := WAIT_BETWEEN_SIGNALS
    did_boot := false
    entries := [] }

/-- Modelled from the spec: the fresh in-progress entry a `REC id` line
starts (a `Child::new()` with the given id; the decoder has no clock, so
`tm` is 0). -/
def newDecChild (id : List Char) : Child :=
  { Child.new 0 with id := id }

/-- Modelled from the spec: apply one `FL ` value using the `FLAG_MAPPINGS`
table (`RU`, `DE`, `XD`, `WT`); unknown flag names are ignored. -/
def applyFlag (v : List Char) (f : ChildFlags) : ChildFlags :=
  if v = "RU".toList then { f with running := true }
  else if v = "DE".toList then { f with demand := true }
  else if v = "XD".toList then { f with xecuted := true }
  else if v = "WT".toList then { f with waiting := true }
  else f

/-- Modelled from the spec: `"1"` decodes to true, anything else to false. -/
def boolVal (v : List Char) : Bool := v = ['1']

/-- Modelled from the spec: the effect of one recognized line on the decoder
state. Global lines update the globals; record lines update the in-progress
entry (and are ignored when no `REC` is open); `EOR` commits the entry. -/
def applyTok (t : StateToken) (v : List Char) (res : DecodeRes) (cur : Option Child) :
    DecodeRes × Option Child :=
  match t with
  | .verTok => ({ res with version := v }, cur)
  | .runlevelTok => ({ res with runlevel := v.headD 'S' }, cur)
  | .thisLevelTok => ({ res with curlevel := v.headD 'S' }, cur)
  | .prevLevelTok => ({ res with prevlevel := v.headD 'N' }, cur)
  | .gotSignTok => ({ res with gotSign := boolVal v }, cur)
  | .wroteWtmpRebootTok => ({ res with wrote_wtmp_reboot := boolVal v }, cur)
  | .wroteUtmpRebootTok => ({ res with wrote_utmp_reboot := boolVal v }, cur)
  | .slTimeTok => ({ res with sleep_time := parseNat v }, cur)
  | .didBootTok => ({ res with did_boot := boolVal v }, cur)
  | .wroteWtmpRlevelTok => ({ res with wrote_wtmp_rlevel := boolVal v }, cur)
  | .wroteUtmpRlevelTok => ({ res with wrote_utmp_rlevel := boolVal v }, cur)
  | .recTok => (res, some (newDecChild v))
  | .levTok => (res, cur.map fun c => { c with rlevel := v })
  | .flagTok => (res, cur.map fun c => { c with flags := applyFlag v c.flags })
  | .pidTok => (res, cur.map fun c => { c with pid := parseInt v })
  | .exsTok => (res, cur.map fun c => { c with exstat := parseInt v })
  | .actionTok =>
    (res, cur.map fun c =>
      match InitAction.fromStr v with
      | some a => { c with action := a }
      | none => c)
  | .processTok => (res, cur.map fun c => { c with process := v })
  | .eorTok =>
    (match cur with
     | some c => ({ res with entries := res.entries ++ [c] }, none)
     | none => (res, none))
  | .endTok => (res, cur)
  | .eofTok => (res, cur)

/-- Modelled from the spec: read the remainder of the current line as the
value (everything before the next newline; the newline is consumed). -/
def read_value (s : List Char) : List Char × List Char :=
  (s.takeWhile (fun c => c != '\n'), (s.dropWhile (fun c => c != '\n')).drop 1)

/-- Modelled from the spec: the decode loop. One fuel unit per line (every
iteration consumes at least one character, so the stream length supplied by
`decode` dominates the iteration count). `END` stops the loop; on `Eof`
from `get_cmd` (unrecognized name or short read) the line's remainder is
discarded with `get_void` and decoding continues with the next line, or
terminates without error at end of stream. -/
def decodeLoop : Nat → List Char → DecodeRes → Option Child → DecodeRes
  | 0, _, res, _ => res
  | fuel + 1, s, res, cur =>
    match get_cmd s with
    | (.endTok, _) => res
    | (.eofTok, s1) =>
      (match get_void s1 with
       | (true, s2) => decodeLoop fuel s2 res cur
       | (false, _) => res)
    | (t, s1) =>
      let v := read_value s1
      let step := applyTok t v.1 res cur
      decodeLoop fuel v.2 step.1 step.2

/-- Modelled from the spec: decode a whole stream, best effort. -/
def decode (s : List Char) : DecodeRes :=
  decodeLoop s.length s initDecodeRes none

/-! ## FailsafeMonitor

Modelled from the spec: the failsafe logic is not in src/ (only the
constants `MAXSPAWN`, `TESTTIME`, `SLEEPTIME` are); §4.3 of the spec gives
the algorithm. Only the throttle-relevant fields of an entry are carried. -/

structure FailsafeChild where
  tm : Nat
  count : Nat
  failing : Bool
deriving DecidableEq

/-- Modelled from the spec (§4.3): one candidate respawn of a Respawn-class
entry at time `now`. While FAILING, spawning is suppressed until the 300s
cooldown from the failure time has elapsed, at which point FAILING clears
and one respawn attempt is permitted. Otherwise, a respawn within the 120s
window increments `count` (else it resets to 1 and re-anchors `tm`), and a
count exceeding 10 sets FAILING (anchoring `tm` at this failure) and
suppresses the spawn. Returns the updated entry and whether to spawn. -/
def failsafe_step (now : Nat) (s : FailsafeChild) : FailsafeChild × Bool :=
  if s.failing then
    if s.tm + SLEEPTIME ≤ now then
      ({ tm := now, count := 1, failing := false }, true)
    else (s, false)
  else
    let s1 : FailsafeChild :=
      if now < s.tm + TESTTIME then { s with count := s.count + 1 }
      else { tm := now, count := 1, failing := false }
    if MAXSPAWN < s1.count then ({ s1 with failing := true, tm := now }, false)
    else (s1, true)

/-- Run a sequence of candidate respawns, keeping only the entry state. -/
def failsafe_run (times : List Nat) (s : FailsafeChild) : FailsafeChild :=
  times.foldl (fun st t => (failsafe_step t st).1) s

/-! ## Helper lemmas on characters -/

theorem charEq_iff (a b : Char) : a = b ↔ a.toNat = b.toNat :=
  ⟨fun h => congrArg Char.toNat h, fun h => Char.eq_of_val_eq (UInt32.toNat.inj h)⟩

theorem charLe_iff (a b : Char) : a ≤ b ↔ a.toNat ≤ b.toNat := Iff.rfl

/-! ## Claim theorems: runlevel validation, table insertion, emergency shell -/

/-- C6: a runlevel transition target is accepted by `is_valid_runlevel`
exactly when it is one of the runlevel characters 0-6, S or the pseudo-levels
A, B, C after `normalize_runlevel` folds the accepted lowercase forms s, a,
b, c to uppercase; every other character is rejected. -/
theorem runlevel_target_valid_iff (c : Char) :
    is_valid_runlevel c = true ↔
      normalize_runlevel c ∈ ['0', '1', '2', '3', '4', '5', '6', 'S', 'A', 'B', 'C'] := by
  by_cases h0 : c = 's'
  · subst h0; decide
  by_cases h1 : c = 'a'
  · subst h1; decide
  by_cases h2 : c = 'b'
  · subst h2; decide
  by_cases h3 : c = 'c'
  · subst h3; decide
  have hn : normalize_runlevel c = c := by
    simp [normalize_runlevel, h0, h1, h2, h3]
  rw [hn]
  simp only [is_valid_runlevel, Bool.or_eq_true, Bool.and_eq_true, decide_eq_true_eq,
    beq_iff_eq, List.mem_cons, List.not_mem_nil, or_false]
  simp only [charEq_iff, charLe_iff] at h0 h1 h2 h3 ⊢
  simp only [show ('0' : Char).toNat = 48 from rfl, show ('1' : Char).toNat = 49 from rfl,
    show ('2' : Char).toNat = 50 from rfl, show ('3' : Char).toNat = 51 from rfl,
    show ('4' : Char).toNat = 52 from rfl, show ('5' : Char).toNat = 53 from rfl,
    show ('6' : Char).toNat = 54 from rfl, show ('S' : Char).toNat = 83 from rfl,
    show ('s' : Char).toNat = 115 from rfl, show ('A' : Char).toNat = 65 from rfl,
    show ('B' : Char).toNat = 66 from rfl, show ('C' : Char).toNat = 67 from rfl,
    show ('a' : Char).toNat = 97 from rfl, show ('b' : Char).toNat = 98 from rfl,
    show ('c' : Char).toNat = 99 from rfl] at h0 h1 h2 h3 ⊢
  omega

/-- C8: `add_child` prepends: the inserted entry becomes the first entry of
the table and the previously present entries follow, unchanged and in their
prior relative order. -/
theorem add_child_prepends (st : InitState) (c : Child) :
    (st.add_child c).family.head? = some c ∧ (st.add_child c).family.tail = st.family ∧
      (st.add_child c).family = c :: st.family :=
  ⟨rfl, rfl, rfl⟩

/-- A first entry with id "aa" (used to exhibit the duplicate-id insertion). -/
def dupChildA : Child :=
  { Child.new 0 with
      id := "aa".toList
      action := .respawn
      process := "/bin/a".toList
      flags := { ChildFlags.empty with running := true } }

/-- A distinct second entry with the same id "aa". -/
def dupChildB : Child :=
  { Child.new 0 with
      id := "aa".toList
      action := .once
      process := "/bin/b".toList
      flags := { ChildFlags.empty with running := true } }

/-- C3: evaluation at the failing input. `add_child` has no failure path and
performs no id check, so inserting a second entry whose id equals a live
entry's id succeeds and leaves two live entries with the same id in the
table; lookups by that id silently return only the newer entry. -/
theorem add_child_allows_duplicate_id :
    dupChildB ≠ dupChildA ∧
      ((InitState.new.add_child dupChildA).add_child dupChildB).family.map Child.id =
        ["aa".toList, "aa".toList] ∧
      ((InitState.new.add_child dupChildA).add_child dupChildB).find_child_by_id "aa".toList =
        some dupChildB := by
  refine ⟨by decide, rfl, by decide⟩

/-- C7: the emergency-shell fallback synthesizes exactly one entry with the
fixed reserved id `~~`, action Once, runlevel set containing only "S" and
the rescue-shell command `/sbin/sulogin`, and (insertion path modelled from
the spec, §4.6) it is inserted through the ordinary `add_child` table path,
landing in `family` under normal supervision like any other entry. -/
theorem emergency_shell_spec :
    (∀ now, (create_emergency_shell now).id = "~~".toList ∧
      (create_emergency_shell now).action = .once ∧
      (create_emergency_shell now).rlevel = ['S'] ∧
      (create_emergency_shell now).process = "/sbin/sulogin".toList ∧
      (create_emergency_shell now).pid = NO_PROCESS) ∧
    (∀ (st : InitState) (now : Nat), (st.add_child (create_emergency_shell now)).family =
      create_emergency_shell now :: st.family) :=
  ⟨fun _ => ⟨rfl, rfl, rfl, rfl, rfl⟩, fun _ _ => rfl⟩

/-! ## Ring buffer accounting -/

/-- Index behaviour of a non-empty `push` in the `out_idx <= in_idx` regime. -/
theorem push_at (rb : RingBuf) (data : List Nat) (i o L : Nat) (hi : rb.in_idx = i)
    (ho : rb.out_idx = o) (hlen : data.length = L) (hcond : o ≤ i)
    (hnz : min L (RINGBUF_SIZE - i) ≠ 0) :
    (rb.push data).1.in_idx = (i + min L (RINGBUF_SIZE - i)) % RINGBUF_SIZE ∧
      (rb.push data).1.out_idx = o ∧ (rb.push data).2 = min L (RINGBUF_SIZE - i) := by
  simp only [RingBuf.push, hi, ho, hlen, if_pos hcond, if_neg hnz]
  refine ⟨?_, ?_, ?_⟩ <;> trivial

/-- Computes `available` as a function of the two indices. -/
theorem available_at (rb : RingBuf) (i o : Nat) (hi : rb.in_idx = i) (ho : rb.out_idx = o) :
    rb.available = if o ≤ i then i - o else RINGBUF_SIZE - i + o := by
  simp only [RingBuf.available, hi, ho]

/-- C9: evaluation at the failing inputs. Pushing a buffer-capacity chunk
into a fresh ring buffer accepts all `RINGBUF_SIZE` bytes but wraps `in_idx`
back onto `out_idx`, so `available()` reports 0 instead of `RINGBUF_SIZE`
and the next push happily overwrites every unconsumed byte; moreover, after
push 32767 / consume 2 / push 2 (1 accepted), `in_idx` wraps below
`out_idx` and `available()` reports 32770 — more than the capacity — where
the outstanding count is 32766. -/
theorem ringbuf_accounting_violated (data : List Nat) (h : data.length = RINGBUF_SIZE) :
    (RingBuf.new.push data).2 = RINGBUF_SIZE ∧
    (RingBuf.new.push data).1.available = 0 ∧
    ((RingBuf.new.push data).1.push [9]).2 = 1 ∧
    (((RingBuf.new.push (data.drop 1)).1.advance_out 2).push [5, 5]).1.available = 32770 := by
  have h1 := push_at RingBuf.new data 0 0 RINGBUF_SIZE rfl rfl h (by omega)
    (by norm_num [RINGBUF_SIZE])
  have hin : (RingBuf.new.push data).1.in_idx = 0 := by
    rw [h1.1]; norm_num [RINGBUF_SIZE]
  have hout : (RingBuf.new.push data).1.out_idx = 0 := h1.2.1
  have hd : (data.drop 1).length = 32767 := by
    rw [List.length_drop, h]
    norm_num [RINGBUF_SIZE]
  have h3 := push_at RingBuf.new (data.drop 1) 0 0 32767 rfl rfl hd (by omega)
    (by norm_num [RINGBUF_SIZE])
  have h4in : ((RingBuf.new.push (data.drop 1)).1.advance_out 2).in_idx = 32767 := by
    rw [RingBuf.advance_out, h3.1]
    norm_num [RINGBUF_SIZE]
  have h4out : ((RingBuf.new.push (data.drop 1)).1.advance_out 2).out_idx = 2 := by
    rw [RingBuf.advance_out]
    simp only [h3.2.1]
    norm_num [RINGBUF_SIZE]
  have h5 := push_at ((RingBuf.new.push (data.drop 1)).1.advance_out 2) [5, 5] 32767 2 2
    h4in h4out rfl (by omega) (by norm_num [RINGBUF_SIZE])
  refine ⟨?_, ?_, ?_, ?_⟩
  · rw [h1.2.2]; norm_num [RINGBUF_SIZE]
  · rw [available_at _ 0 0 hin hout]; norm_num
  · rw [(push_at (RingBuf.new.push data).1 [9] 0 0 1 hin hout rfl (by omega)
      (by norm_num [RINGBUF_SIZE])).2.2]
    norm_num [RINGBUF_SIZE]
  · have h5in : ((((RingBuf.new.push (data.drop 1)).1.advance_out 2).push [5, 5]).1).in_idx = 0 := by
      rw [h5.1]; norm_num [RINGBUF_SIZE]
    have h5out : ((((RingBuf.new.push (data.drop 1)).1.advance_out 2).push [5, 5]).1).out_idx = 2 :=
      h5.2.1
    rw [available_at _ 0 2 h5in h5out]
    norm_num [RINGBUF_SIZE]

/-- C9 witness: the failing inputs realized with a concrete capacity-sized
chunk of bytes. -/
theorem ringbuf_accounting_violated_witness :
    (List.replicate RINGBUF_SIZE 7).length = RINGBUF_SIZE ∧
      ((RingBuf.new.push (List.replicate RINGBUF_SIZE 7)).2 = RINGBUF_SIZE ∧
       (RingBuf.new.push (List.replicate RINGBUF_SIZE 7)).1.available = 0 ∧
       ((RingBuf.new.push (List.replicate RINGBUF_SIZE 7)).1.push [9]).2 = 1 ∧
       (((RingBuf.new.push ((List.replicate RINGBUF_SIZE 7).drop 1)).1.advance_out 2).push
         [5, 5]).1.available = 32770) :=
  ⟨List.length_replicate RINGBUF_SIZE 7,
   ringbuf_accounting_violated (List.replicate RINGBUF_SIZE 7)
     (List.length_replicate RINGBUF_SIZE 7)⟩

/-! ## get_string behaviour -/

/-- C10: `get_string` always succeeds; it returns exactly the first
`max_size` characters of the input that precede the first newline, of
length at most `max_size`, and it stops at the first newline (consumed,
not returned), at the `max_size` budget, or at end of stream — end of
stream yields the characters read so far rather than an error. -/
theorem get_string_spec (n : Nat) (s : List Char) :
    (get_string n s).1 = (s.takeWhile (fun c => c != '\n')).take n ∧
    (get_string n s).1.length ≤ n ∧
    (get_string n s).2 =
      (if (s.takeWhile (fun c => c != '\n')).length < n then
        s.drop ((s.takeWhile (fun c => c != '\n')).length + 1)
      else s.drop n) := by
  induction n generalizing s with
  | zero => simp [get_string]
  | succ m ih =>
    cases s with
    | nil => simp [get_string]
    | cons c rest =>
      by_cases hc : c = '\n'
      · subst hc
        simp [get_string, List.takeWhile]
      · have hb : (c != '\n') = true := by simp [hc]
        obtain ⟨ih1, ih2, ih3⟩ := ih rest
        refine ⟨?_, ?_, ?_⟩
        · simp [get_string, hc, List.takeWhile, hb, ih1]
        · simpa [get_string, hc] using ih2
        · simp only [get_string, hc, if_false, List.takeWhile, hb, cond_true, List.length_cons,
            List.drop_succ_cons, ite_false]
          rw [ih3]
          by_cases hlt : (rest.takeWhile (fun c => c != '\n')).length < m
          · rw [if_pos hlt, if_pos (by omega)]
          · rw [if_neg hlt, if_neg (by omega)]
/-! ## Failsafe throttle behaviour -/

/-- An in-window respawn below the threshold increments the count and spawns. -/
theorem failsafe_incr (now : Nat) (s : FailsafeChild) (hf : s.failing = false)
    (hw : now < s.tm + TESTTIME) (hc : s.count + 1 ≤ MAXSPAWN) :
    failsafe_step now s = ({ s with count := s.count + 1 }, true) := by
  simp only [failsafe_step, hf, Bool.false_eq_true, if_false, if_pos hw]
  rw [if_neg]
  omega

/-- An in-window respawn pushing the count past `MAXSPAWN` sets FAILING,
anchors `tm` at the failure time, and suppresses the spawn. -/
theorem failsafe_trip (now : Nat) (s : FailsafeChild) (hf : s.failing = false)
    (hw : now < s.tm + TESTTIME) (hc : MAXSPAWN < s.count + 1) :
    failsafe_step now s = ({ tm := now, count := s.count + 1, failing := true }, false) := by
  simp only [failsafe_step, hf, Bool.false_eq_true, if_false, if_pos hw]
  rw [if_pos hc]

/-- While FAILING and inside the cooldown, nothing changes and no spawn occurs. -/
theorem failsafe_suppress (now : Nat) (s : FailsafeChild) (hf : s.failing = true)
    (hw : now < s.tm + SLEEPTIME) :
    failsafe_step now s = (s, false) := by
  simp only [failsafe_step, hf, if_true]
  rw [if_neg]
  omega

/-- Once the cooldown has elapsed, FAILING clears and one spawn is permitted. -/
theorem failsafe_clear (now : Nat) (s : FailsafeChild) (hf : s.failing = true)
    (hw : s.tm + SLEEPTIME ≤ now) :
    failsafe_step now s = ({ tm := now, count := 1, failing := false }, true) := by
  simp only [failsafe_step, hf, if_true, if_pos hw]

/-- C2: a Respawn-class entry restarting 11 times within the 120s window
(11 candidate respawns at non-decreasing times inside the window) ends
FAILING with the failure anchored at the 11th time; every further candidate
respawn before 300s have elapsed is suppressed and changes nothing, and the
first candidate at or after 300s clears FAILING and permits exactly one
respawn attempt (count restarts at 1). -/
theorem respawn_failsafe_scenario
    (t t1 t2 t3 t4 t5 t6 t7 t8 t9 t10 t11 : Nat)
    (ha1 : t ≤ t1) (ha2 : t1 ≤ t2) (ha3 : t2 ≤ t3) (ha4 : t3 ≤ t4) (ha5 : t4 ≤ t5)
    (ha6 : t5 ≤ t6) (ha7 : t6 ≤ t7) (ha8 : t7 ≤ t8) (ha9 : t8 ≤ t9) (ha10 : t9 ≤ t10)
    (ha11 : t10 ≤ t11) (hw : t11 < t + TESTTIME) :
    failsafe_run [t1, t2, t3, t4, t5, t6, t7, t8, t9, t10, t11]
        ⟨t, 0, false⟩ = ⟨t11, 11, true⟩ ∧
    (∀ u : Nat, u < t11 + SLEEPTIME →
      failsafe_step u ⟨t11, 11, true⟩ = (⟨t11, 11, true⟩, false)) ∧
    (∀ u : Nat, t11 + SLEEPTIME ≤ u →
      failsafe_step u ⟨t11, 11, true⟩ = (⟨u, 1, false⟩, true)) := by
  refine ⟨?_, ?_, ?_⟩
  · have e1 : (failsafe_step t1 ⟨t, 0, false⟩).1 = ⟨t, 1, false⟩ := by
      rw [failsafe_incr t1 ⟨t, 0, false⟩ rfl (show t1 < t + TESTTIME by omega) (by norm_num [MAXSPAWN])]
    have e2 : (failsafe_step t2 ⟨t, 1, false⟩).1 = ⟨t, 2, false⟩ := by
      rw [failsafe_incr t2 ⟨t, 1, false⟩ rfl (show t2 < t + TESTTIME by omega) (by norm_num [MAXSPAWN])]
    have e3 : (failsafe_step t3 ⟨t, 2, false⟩).1 = ⟨t, 3, false⟩ := by
      rw [failsafe_incr t3 ⟨t, 2, false⟩ rfl (show t3 < t + TESTTIME by omega) (by norm_num [MAXSPAWN])]
    have e4 : (failsafe_step t4 ⟨t, 3, false⟩).1 = ⟨t, 4, false⟩ := by
      rw [failsafe_incr t4 ⟨t, 3, false⟩ rfl (show t4 < t + TESTTIME by omega) (by norm_num [MAXSPAWN])]
    have e5 : (failsafe_step t5 ⟨t, 4, false⟩).1 = ⟨t, 5, false⟩ := by
      rw [failsafe_incr t5 ⟨t, 4, false⟩ rfl (show t5 < t + TESTTIME by omega) (by norm_num [MAXSPAWN])]
    have e6 : (failsafe_step t6 ⟨t, 5, false⟩).1 = ⟨t, 6, false⟩ := by
      rw [failsafe_incr t6 ⟨t, 5, false⟩ rfl (show t6 < t + TESTTIME by omega) (by norm_num [MAXSPAWN])]
    have e7 : (failsafe_step t7 ⟨t, 6, false⟩).1 = ⟨t, 7, false⟩ := by
      rw [failsafe_incr t7 ⟨t, 6, false⟩ rfl (show t7 < t + TESTTIME by omega) (by norm_num [MAXSPAWN])]
    have e8 : (failsafe_step t8 ⟨t, 7, false⟩).1 = ⟨t, 8, false⟩ := by
      rw [failsafe_incr t8 ⟨t, 7, false⟩ rfl (show t8 < t + TESTTIME by omega) (by norm_num [MAXSPAWN])]
    have e9 : (failsafe_step t9 ⟨t, 8, false⟩).1 = ⟨t, 9, false⟩ := by
      rw [failsafe_incr t9 ⟨t, 8, false⟩ rfl (show t9 < t + TESTTIME by omega) (by norm_num [MAXSPAWN])]
    have e10 : (failsafe_step t10 ⟨t, 9, false⟩).1 = ⟨t, 10, false⟩ := by
      rw [failsafe_incr t10 ⟨t, 9, false⟩ rfl (show t10 < t + TESTTIME by omega) (by norm_num [MAXSPAWN])]
    have e11 : (failsafe_step t11 ⟨t, 10, false⟩).1 = ⟨t11, 11, true⟩ := by
      rw [failsafe_trip t11 ⟨t, 10, false⟩ rfl (show t11 < t + TESTTIME by omega) (by norm_num [MAXSPAWN])]
    simp only [failsafe_run, List.foldl, e1, e2, e3, e4, e5, e6, e7, e8, e9, e10, e11]
  · intro u hu
    exact failsafe_suppress u ⟨t11, 11, true⟩ rfl hu
  · intro u hu
    exact failsafe_clear u ⟨t11, 11, true⟩ rfl hu

/-- C2 witness: eleven immediate restarts at time 0; suppressed at 299s,
cleared and permitted at 300s. -/
theorem respawn_failsafe_scenario_witness :
    ((0 : Nat) ≤ 0 ∧ (0 : Nat) < 0 + TESTTIME) ∧
    failsafe_run [0, 0, 0, 0, 0, 0, 0, 0, 0, 0, 0] ⟨0, 0, false⟩ = ⟨0, 11, true⟩ ∧
    failsafe_step 299 ⟨0, 11, true⟩ = (⟨0, 11, true⟩, false) ∧
    failsafe_step 300 ⟨0, 11, true⟩ = (⟨300, 1, false⟩, true) := by
  have h := respawn_failsafe_scenario 0 0 0 0 0 0 0 0 0 0 0 0 (by decide) (by decide)
    (by decide) (by decide) (by decide) (by decide) (by decide) (by decide) (by decide)
    (by decide) (by decide) (by decide)
  exact ⟨⟨by decide, by decide⟩, h.1, h.2.1 299 (by decide), h.2.2 300 (by decide)⟩
/-! ## Inittab line parsing -/

/-- Any string accepted by `InitAction::from_str` is one of the fixed
keywords after lowercasing, hence at most 12 characters long. -/
theorem fromStr_some_length (s : List Char) (h : (InitAction.fromStr s).isSome = true) :
    s.length ≤ 12 := by
  have hlen : s.length = (s.map asciiLower).length := (List.length_map _ _).symm
  rw [hlen]
  cases hfind : List.find? (fun p => p.1 == s.map asciiLower) ACTION_KEYWORDS with
  | none =>
    rw [InitAction.fromStr, hfind] at h
    simp at h
  | some q =>
    have hmem : q ∈ ACTION_KEYWORDS := List.mem_of_find?_eq_some hfind
    have hpred := List.find?_some hfind
    have heq : q.1 = s.map asciiLower := by simpa using hpred
    rw [← heq]
    have hall : ∀ p ∈ ACTION_KEYWORDS, p.1.length ≤ 12 := by decide
    exact hall q hmem

/-- A list of length four is literally a four-element list. -/
theorem list_four {α : Type} (l : List α) (h : l.length = 4) :
    ∃ a b c d, l = [a, b, c, d] := by
  rcases l with _ | ⟨a, _ | ⟨b, _ | ⟨c, _ | ⟨d, _ | ⟨e, tl⟩⟩⟩⟩⟩ <;>
    first
      | (exact ⟨a, b, c, d, rfl⟩)
      | (simp at h)

/-- With anything but exactly four `:`-separated fields the parser drops
the line (returns `none`) rather than failing. -/
theorem parse_shape_none (now : Nat) (line : List Char)
    (h : (splitColon line).length ≠ 4) : Child.from_inittab_line now line = none := by
  unfold Child.from_inittab_line
  rcases hs : splitColon line with _ | ⟨a, _ | ⟨b, _ | ⟨c, _ | ⟨d, _ | ⟨e, tl⟩⟩⟩⟩⟩ <;>
    simp_all

/-- The parser on a four-field line: the bound checks, then the keyword
lookup. -/
theorem parse_shape_four (now : Nat) (line id rl ac pr : List Char)
    (hs : splitColon line = [id, rl, ac, pr]) :
    Child.from_inittab_line now line =
      (if id.length > INITTAB_ID ∨ rl.length > RUNLEVEL_LENGTH ∨ ac.length > ACTION_LENGTH ∨
          pr.length > PROCESS_LENGTH then none
      else
        match InitAction.fromStr ac with
        | none => none
        | some action =>
          some { flags := ChildFlags.empty, exstat := 0, pid := NO_PROCESS,
                 tm := now, count := 0, id := id, rlevel := rl, action := action,
                 process := pr }) := by
  unfold Child.from_inittab_line
  rw [hs]

/-- C4: parsing an inittab line yields an entry exactly when the line has
four `:`-separated fields with the id at most 8 characters, the runlevels
at most 12, the command at most 512, and an action accepted by the fixed
keyword table (such keywords are at most 12 characters, so their own 33
bound is implied); every other line is dropped with `none`, never a
failure, and a parsed entry carries the given id, runlevels, action and
command with empty flags and the no-process pid. -/
theorem from_inittab_line_spec (now : Nat) (line : List Char) :
    ((Child.from_inittab_line now line).isSome = true ↔
      (∃ id rl ac pr, splitColon line = [id, rl, ac, pr] ∧
        id.length ≤ INITTAB_ID ∧ rl.length ≤ RUNLEVEL_LENGTH ∧
        pr.length ≤ PROCESS_LENGTH ∧ (InitAction.fromStr ac).isSome = true)) ∧
    (∀ c : Child, Child.from_inittab_line now line = some c →
      ∃ ac, splitColon line = [c.id, c.rlevel, ac, c.process] ∧
        InitAction.fromStr ac = some c.action ∧ c.flags = ChildFlags.empty ∧
        c.pid = NO_PROCESS ∧ c.tm = now) := by
  by_cases hn : (splitColon line).length = 4
  · obtain ⟨id, rl, ac, pr, hs⟩ := list_four (splitColon line) hn
    rw [parse_shape_four now line id rl ac pr hs] at *
    constructor
    · constructor
      · intro h
        by_cases hb : id.length > INITTAB_ID ∨ rl.length > RUNLEVEL_LENGTH ∨
            ac.length > ACTION_LENGTH ∨ pr.length > PROCESS_LENGTH
        · rw [if_pos hb] at h
          simp at h
        · rw [if_neg hb] at h
          push_neg at hb
          cases hf : InitAction.fromStr ac with
          | none => rw [hf] at h; simp at h
          | some a =>
            exact ⟨id, rl, ac, pr, hs, by omega, by omega, by omega, by rw [hf]; rfl⟩
      · rintro ⟨id1, rl1, ac1, pr1, hs1, h1, h2, h3, h4⟩
        rw [hs] at hs1
        obtain ⟨e1, e2, e3, e4⟩ : id = id1 ∧ rl = rl1 ∧ ac = ac1 ∧ pr = pr1 := by
          simpa using hs1
        subst e1; subst e2; subst e3; subst e4
        have hac : ac.length ≤ 12 := fromStr_some_length ac h4
        rw [if_neg]
        · obtain ⟨a, ha⟩ := Option.isSome_iff_exists.mp h4
          rw [ha]
          rfl
        · have hA : ACTION_LENGTH = 33 := rfl
          omega
    · intro c h
      by_cases hb : id.length > INITTAB_ID ∨ rl.length > RUNLEVEL_LENGTH ∨
          ac.length > ACTION_LENGTH ∨ pr.length > PROCESS_LENGTH
      · rw [if_pos hb] at h
        exact absurd h (by simp)
      · rw [if_neg hb] at h
        cases hf : InitAction.fromStr ac with
        | none => rw [hf] at h; exact absurd h (by simp)
        | some a =>
          rw [hf] at h
          have hc := Option.some.inj h
          subst hc
          exact ⟨ac, hs, hf, rfl, rfl, rfl⟩
  · rw [parse_shape_none now line hn]
    constructor
    · constructor
      · intro h
        simp at h
      · rintro ⟨id1, rl1, ac1, pr1, hs1, _⟩
        exact absurd (congrArg List.length hs1) (by simpa using hn)
    · intro c h
      exact absurd h (by simp)

/-- C4 witness: the classic `co:2345:respawn:...` line parses. -/
theorem from_inittab_line_spec_witness :
    (Child.from_inittab_line 0 ("co:2345:respawn:/bin/sh".toList)).isSome = true :=
  (from_inittab_line_spec 0 ("co:2345:respawn:/bin/sh".toList)).1.mpr
    ⟨"co".toList, "2345".toList, "respawn".toList, "/bin/sh".toList,
     by decide, by decide, by decide, by decide, by decide⟩
/-! ## Decimal rendering, parsing, and their round trip -/

theorem natDigitsAux_append (fuel : Nat) : ∀ (n : Nat) (acc : List Char),
    natDigitsAux fuel n acc = natDigitsAux fuel n [] ++ acc := by
  induction fuel with
  | zero => intro n acc; simp [natDigitsAux]
  | succ f ih =>
    intro n acc
    by_cases h : n = 0
    · simp [natDigitsAux, h]
    · rw [natDigitsAux, natDigitsAux, if_neg h, if_neg h,
        ih (n / 10) (Nat.digitChar (n % 10) :: acc), ih (n / 10) [Nat.digitChar (n % 10)]]
      simp

theorem natDigitsAux_fuel (n : Nat) : ∀ (f g : Nat) (acc : List Char), n ≤ f → n ≤ g →
    natDigitsAux f n acc = natDigitsAux g n acc := by
  induction n using Nat.strong_induction_on with
  | _ n ih =>
    intro f g acc hf hg
    by_cases h : n = 0
    · subst h
      cases f <;> cases g <;> simp [natDigitsAux]
    · obtain ⟨f1, rfl⟩ := Nat.exists_eq_succ_of_ne_zero (show f ≠ 0 by omega)
      obtain ⟨g1, rfl⟩ := Nat.exists_eq_succ_of_ne_zero (show g ≠ 0 by omega)
      rw [natDigitsAux, natDigitsAux, if_neg h, if_neg h]
      exact ih (n / 10) (by omega) f1 g1 _ (by omega) (by omega)

theorem natDigitsAux_zero (f : Nat) (acc : List Char) : natDigitsAux f 0 acc = acc := by
  cases f <;> rfl

theorem natToChars_lt10 (n : Nat) (h : n < 10) : natToChars n = [Nat.digitChar n] := by
  by_cases h0 : n = 0
  · subst h0; rfl
  · obtain ⟨m, rfl⟩ := Nat.exists_eq_succ_of_ne_zero h0
    rw [natToChars, if_neg h0, natDigitsAux, if_neg h0]
    have hdiv : (m + 1) / 10 = 0 := by omega
    rw [hdiv, natDigitsAux_zero, Nat.mod_eq_of_lt h]

theorem natToChars_decomp (n : Nat) (h : 10 ≤ n) :
    natToChars n = natToChars (n / 10) ++ [Nat.digitChar (n % 10)] := by
  rw [natToChars, if_neg (by omega), natToChars, if_neg (by omega)]
  rw [natDigitsAux, if_neg (by omega)]
  rw [natDigitsAux_append n (n / 10) [Nat.digitChar (n % 10)]]
  congr 1
  exact natDigitsAux_fuel (n / 10) n (n / 10 + 1) [] (by omega) (by omega)

theorem digitChar_toNat (d : Nat) (h : d < 10) : (Nat.digitChar d).toNat = 48 + d := by
  interval_cases d <;> rfl

theorem natToChars_digits (n : Nat) : ∀ c ∈ natToChars n, 48 ≤ c.toNat ∧ c.toNat ≤ 57 := by
  induction n using Nat.strong_induction_on with
  | _ n ih =>
    by_cases h : n < 10
    · rw [natToChars_lt10 n h]
      intro c hc
      simp only [List.mem_singleton] at hc
      subst hc
      rw [digitChar_toNat n h]
      omega
    · rw [natToChars_decomp n (by omega)]
      intro c hc
      rcases List.mem_append.mp hc with h1 | h2
      · exact ih (n / 10) (by omega) c h1
      · simp only [List.mem_singleton] at h2
        subst h2
        rw [digitChar_toNat (n % 10) (by omega)]
        omega

theorem parseNatAux_append (a b : List Char) (k : Nat) :
    parseNatAux (a ++ b) k = parseNatAux b (parseNatAux a k) := by
  induction a generalizing k with
  | nil => rfl
  | cons c r ih => simp [parseNatAux, ih]

theorem parseNat_natToChars (n : Nat) : parseNat (natToChars n) = n := by
  induction n using Nat.strong_induction_on with
  | _ n ih =>
    by_cases h : n < 10
    · rw [natToChars_lt10 n h]
      show parseNatAux [Nat.digitChar n] 0 = n
      rw [parseNatAux, parseNatAux, digitChar_toNat n h]
      omega
    · rw [natToChars_decomp n (by omega), parseNat, parseNatAux_append]
      have ihm := ih (n / 10) (by omega)
      rw [parseNat] at ihm
      rw [ihm]
      rw [parseNatAux, parseNatAux, digitChar_toNat (n % 10) (by omega)]
      omega

theorem natToChars_ne_nil (n : Nat) : natToChars n ≠ [] := by
  by_cases h : n < 10
  · rw [natToChars_lt10 n h]; simp
  · rw [natToChars_decomp n (by omega)]; simp

theorem parseInt_intToChars (i : Int) : parseInt (intToChars i) = i := by
  by_cases h : i < 0
  · rw [intToChars, if_pos h, parseInt, if_pos rfl, parseNat_natToChars]
    omega
  · rw [intToChars, if_neg h]
    cases hx : natToChars i.toNat with
    | nil => exact absurd hx (natToChars_ne_nil _)
    | cons c r =>
      have hd := natToChars_digits i.toNat c (by rw [hx]; exact List.mem_cons_self c r)
      have hc : c ≠ '-' := by
        intro he
        subst he
        revert hd
        decide
      rw [parseInt, if_neg hc, ← hx, parseNat_natToChars]
      omega

theorem natToChars_noNl (n : Nat) : ∀ c ∈ natToChars n, c ≠ '\n' := by
  intro c hc he
  have := natToChars_digits n c hc
  subst he
  revert this
  decide

theorem intToChars_noNl (i : Int) : ∀ c ∈ intToChars i, c ≠ '\n' := by
  intro c hc
  rw [intToChars] at hc
  by_cases h : i < 0
  · rw [if_pos h] at hc
    rcases List.mem_cons.mp hc with h1 | h2
    · subst h1; decide
    · exact natToChars_noNl _ c h2
  · rw [if_neg h] at hc
    exact natToChars_noNl _ c hc

/-! ## The decode loop: helpers, per-line behaviour, and the round trip -/

/-- The decode loop on an empty stream returns its result unchanged. -/
theorem decodeLoop_nil (f : Nat) (res : DecodeRes) (cur : Option Child) :
    decodeLoop f [] res cur = res := by
  cases f <;> rfl

/-- Discarding a line remainder consumes at least the newline found. -/
theorem get_void_true_len (w s2 : List Char) (h : get_void w = (true, s2)) :
    s2.length < w.length := by
  induction w generalizing s2 with
  | nil => simp [get_void] at h
  | cons c rest ih =>
    by_cases hc : c = '\n'
    · subst hc
      rw [get_void, if_pos rfl] at h
      obtain ⟨-, h2⟩ := Prod.mk.injEq .. ▸ h
      subst h2
      simp
    · rw [get_void, if_neg hc] at h
      have := ih s2 h
      simp
      omega

/-- `get_void` on a newline-free stream reaches end of stream. -/
theorem get_void_no_nl (w : List Char) (h : ∀ x ∈ w, x ≠ '\n') :
    get_void w = (false, []) := by
  induction w with
  | nil => rfl
  | cons c rest ih =>
    rw [get_void, if_neg (h c (List.mem_cons_self c rest))]
    exact ih (fun x hx => h x (List.mem_cons_of_mem c hx))

/-- `get_void` on a newline-terminated junk line discards exactly that
line's remainder and lands on the next line. -/
theorem get_void_skips_line (junk rest : List Char) (h : ∀ x ∈ junk, x ≠ '\n') :
    get_void (junk ++ '\n' :: rest) = (true, rest) := by
  induction junk with
  | nil => rfl
  | cons x xs ih =>
    rw [List.cons_append, get_void, if_neg (h x (List.mem_cons_self x xs))]
    exact ih (fun y hy => h y (List.mem_cons_of_mem x hy))

/-- A stream shorter than one token ends decoding: `get_cmd` reports `Eof`
and `get_void` finds at most a stray newline before end of stream. -/
theorem decodeLoop_short : ∀ (n : Nat) (s : List Char) (f : Nat) (res : DecodeRes)
    (cur : Option Child), s.length = n → n < 3 → decodeLoop f s res cur = res := by
  intro n
  induction n using Nat.strong_induction_on with
  | _ n ih =>
    intro s f res cur hn h3
    cases f with
    | zero => rfl
    | succ f1 =>
      rcases s with _ | ⟨a, _ | ⟨b, _ | ⟨c, w⟩⟩⟩
      · rfl
      · have hn1 : n = 1 := by simpa using hn.symm
        rw [decodeLoop]
        simp only [get_cmd]
        rcases hgv : get_void [a] with ⟨b1, s2⟩
        cases b1
        · rfl
        · have hlt := get_void_true_len [a] s2 hgv
          have hl1 : ([a] : List Char).length = 1 := rfl
          exact ih s2.length (by omega) s2 f1 res cur rfl (by omega)
      · have hn2 : n = 2 := by simpa using hn.symm
        rw [decodeLoop]
        simp only [get_cmd]
        rcases hgv : get_void [a, b] with ⟨b1, s2⟩
        cases b1
        · rfl
        · have hlt := get_void_true_len [a, b] s2 hgv
          have hl2 : ([a, b] : List Char).length = 2 := rfl
          exact ih s2.length (by omega) s2 f1 res cur rfl (by omega)
      · exfalso
        simp only [List.length_cons] at hn
        omega

/-- A `dropWhile` never lengthens a list. -/
theorem dropWhile_length_le (p : Char → Bool) (w : List Char) :
    (w.dropWhile p).length ≤ w.length := by
  induction w with
  | nil => simp
  | cons c r ih =>
    by_cases hc : p c = true
    · rw [List.dropWhile_cons_of_pos hc]
      simp
      omega
    · rw [List.dropWhile_cons_of_neg (by simpa using hc)]

/-- Reading a value never lengthens the remaining stream. -/
theorem read_value_len (w : List Char) : (read_value w).2.length ≤ w.length := by
  rw [read_value]
  have h1 := dropWhile_length_le (fun c => c != '\n') w
  have h2 := List.length_drop 1 (w.dropWhile (fun c => c != '\n'))
  simp only [h2]
  omega

/-- The decode loop is fuel-irrelevant once the fuel dominates the stream
length (each iteration consumes at least the three token characters). -/
theorem decodeLoop_fuel : ∀ (n : Nat) (s : List Char) (f g : Nat) (res : DecodeRes)
    (cur : Option Child), s.length = n → n ≤ f → n ≤ g →
    decodeLoop f s res cur = decodeLoop g s res cur := by
  intro n
  induction n using Nat.strong_induction_on with
  | _ n ih =>
    intro s f g res cur hn hf hg
    rcases s with _ | ⟨a, _ | ⟨b, _ | ⟨c, w⟩⟩⟩
    · rw [decodeLoop_nil, decodeLoop_nil]
    · rw [decodeLoop_short 1 [a] f res cur rfl (by omega),
        decodeLoop_short 1 [a] g res cur rfl (by omega)]
    · rw [decodeLoop_short 2 [a, b] f res cur rfl (by omega),
        decodeLoop_short 2 [a, b] g res cur rfl (by omega)]
    · have hlen : w.length + 3 = n := by simpa using hn
      obtain ⟨f1, rfl⟩ := Nat.exists_eq_succ_of_ne_zero (show f ≠ 0 by omega)
      obtain ⟨g1, rfl⟩ := Nat.exists_eq_succ_of_ne_zero (show g ≠ 0 by omega)
      rw [decodeLoop, decodeLoop]
      cases ht : lookupCmd [a, b, c] <;> simp only [get_cmd, ht]
      case eofTok =>
        rcases hgv : get_void w with ⟨b1, s2⟩
        cases b1
        · rfl
        · have hlt := get_void_true_len w s2 hgv
          exact ih s2.length (by omega) s2 f1 g1 res cur rfl (by omega) (by omega)
      all_goals
        exact ih (read_value w).2.length
          (by have := read_value_len w; omega)
          (read_value w).2 f1 g1 _ _ rfl
          (by have := read_value_len w; omega)
          (by have := read_value_len w; omega)

/-- A `takeWhile` up to the first newline recovers a newline-free prefix. -/
theorem takeWhile_prefix_nl (v rest : List Char) (hv : ∀ x ∈ v, x ≠ '\n') :
    (v ++ '\n' :: rest).takeWhile (fun c => c != '\n') = v := by
  induction v with
  | nil => simp [List.takeWhile]
  | cons x xs ih =>
    have hx : (x != '\n') = true := by simpa using hv x (List.mem_cons_self x xs)
    simp only [List.cons_append, List.takeWhile_cons, hx, if_true]
    rw [ih (fun y hy => hv y (List.mem_cons_of_mem x hy))]

/-- A `dropWhile` up to the first newline lands on that newline. -/
theorem dropWhile_prefix_nl (v rest : List Char) (hv : ∀ x ∈ v, x ≠ '\n') :
    (v ++ '\n' :: rest).dropWhile (fun c => c != '\n') = '\n' :: rest := by
  induction v with
  | nil => simp [List.dropWhile]
  | cons x xs ih =>
    have hx : (x != '\n') = true := by simpa using hv x (List.mem_cons_self x xs)
    simp only [List.cons_append, List.dropWhile_cons, hx, if_true]
    exact ih (fun y hy => hv y (List.mem_cons_of_mem x hy))

/-- Reading the value of a well-formed line yields the value and the stream
after the newline. -/
theorem read_value_spec (v rest : List Char) (hv : ∀ x ∈ v, x ≠ '\n') :
    read_value (v ++ '\n' :: rest) = (v, rest) := by
  rw [read_value, takeWhile_prefix_nl v rest hv, dropWhile_prefix_nl v rest hv]
  rfl

/-- One recognized, non-terminating line advances the decode loop by exactly
`applyTok` and continues on the remainder with normalized fuel. -/
theorem decode_line (a b c : Char) (t : StateToken) (v rest : List Char) (res : DecodeRes)
    (cur : Option Child) (f : Nat) (ht : lookupCmd [a, b, c] = t) (hne : t ≠ StateToken.eofTok)
    (hnd : t ≠ StateToken.endTok) (hv : ∀ x ∈ v, x ≠ '\n')
    (hf : (sline [a, b, c] v rest).length ≤ f) :
    decodeLoop f (sline [a, b, c] v rest) res cur =
      decodeLoop rest.length rest (applyTok t v res cur).1 (applyTok t v res cur).2 := by
  have hs : sline [a, b, c] v rest = a :: b :: c :: (v ++ '\n' :: rest) := by
    simp [sline]
  rw [hs] at hf ⊢
  have hflen : v.length + rest.length + 4 ≤ f := by
    simp [List.length_append] at hf
    omega
  obtain ⟨f1, rfl⟩ := Nat.exists_eq_succ_of_ne_zero (show f ≠ 0 by omega)
  rw [decodeLoop]
  simp only [get_cmd, ht]
  cases t <;>
    first
      | (exact absurd rfl hne)
      | (exact absurd rfl hnd)
      | (simp only [read_value_spec v rest hv]
         exact decodeLoop_fuel rest.length rest f1 rest.length _ _ rfl (by omega) (by omega))

/-- No character of the list is a newline. -/
def NoNl (l : List Char) : Prop := ∀ x ∈ l, x ≠ '\n'

/-- What the decoder recovers of an encoded child: id, runlevels, action,
pid and exit status survive; of the flags only the four with `FLAG_MAPPINGS`
entries (RUNNING, DEMAND, XECUTED, WAITING) survive — KILLME, FAILING and
ZOMBIE are never written by `send_state` — and the unencoded `tm`/`count`
reset to the fresh-child defaults. -/
def decodedChild (c : Child) : Child :=
  { flags := { running := c.flags.running, killme := false, demand := c.flags.demand,
               failing := false, waiting := c.flags.waiting, zombie := false,
               xecuted := c.flags.xecuted }
    exstat := c.exstat
    pid := c.pid
    tm := 0
    count := 0
    id := c.id
    rlevel := c.rlevel
    action := c.action
    process := c.process }

/-- Action keywords contain no newline. -/
theorem actionName_noNl (a : InitAction) : ∀ x ∈ actionName a, x ≠ '\n' := by
  cases a <;> decide

/-- The keyword written for an action parses back to that action. -/
theorem fromStr_actionName (a : InitAction) : InitAction.fromStr (actionName a) = some a := by
  cases a <;> rfl

/-- Line `FL RU` sets RUNNING. -/
theorem applyFlag_RU (f : ChildFlags) : applyFlag ['R', 'U'] f = { f with running := true } := rfl

/-- Line `FL DE` sets DEMAND. -/
theorem applyFlag_DE (f : ChildFlags) : applyFlag ['D', 'E'] f = { f with demand := true } := rfl

/-- Line `FL XD` sets XECUTED. -/
theorem applyFlag_XD (f : ChildFlags) : applyFlag ['X', 'D'] f = { f with xecuted := true } := rfl

/-- Line `FL WT` sets WAITING. -/
theorem applyFlag_WT (f : ChildFlags) : applyFlag ['W', 'T'] f = { f with waiting := true } := rfl

/-- A conditional flag line applies its flag exactly when it was written. -/
theorem decode_flag_line (b : Bool) (nm rest : List Char) (res : DecodeRes) (c : Child)
    (ht : lookupCmd ['F', 'L', ' '] = StateToken.flagTok) (hv : ∀ x ∈ nm, x ≠ '\n') :
    decodeLoop ((flagLine b nm rest).length) (flagLine b nm rest) res (some c) =
      decodeLoop rest.length rest res
        (some (if b then { c with flags := applyFlag nm c.flags } else c)) := by
  cases b
  · rfl
  · have h := decode_line 'F' 'L' ' ' StateToken.flagTok nm rest res (some c)
      ((sline ['F', 'L', ' '] nm rest).length) ht (by decide) (by decide) hv (le_refl _)
    simp only [applyTok, Option.map_some'] at h
    simpa [flagLine] using h

set_option maxHeartbeats 2000000 in
/-- Decoding one encoded child record commits exactly `decodedChild`. -/
theorem decode_encode_child (c : Child) (rest : List Char) (res : DecodeRes)
    (h1 : NoNl c.id) (h2 : NoNl c.rlevel) (h3 : NoNl c.process) :
    decodeLoop ((encode_child c rest).length) (encode_child c rest) res none =
      decodeLoop rest.length rest { res with entries := res.entries ++ [decodedChild c] }
        none := by
  rw [encode_child]
  rw [decode_line 'R' 'E' 'C' StateToken.recTok c.id _ res none _ (by decide) (by decide)
    (by decide) h1 (le_refl _)]
  simp only [applyTok]
  rw [decode_line 'L' 'E' 'V' StateToken.levTok c.rlevel _ _ _ _ (by decide) (by decide)
    (by decide) h2 (le_refl _)]
  simp only [applyTok, Option.map_some']
  rw [decode_flag_line c.flags.running ['R', 'U'] _ _ _ (by decide) (by decide)]
  rw [decode_flag_line c.flags.demand ['D', 'E'] _ _ _ (by decide) (by decide)]
  rw [decode_flag_line c.flags.xecuted ['X', 'D'] _ _ _ (by decide) (by decide)]
  rw [decode_flag_line c.flags.waiting ['W', 'T'] _ _ _ (by decide) (by decide)]
  rw [decode_line 'P' 'I' 'D' StateToken.pidTok (intToChars c.pid) _ _ _ _ (by decide)
    (by decide) (by decide) (intToChars_noNl c.pid) (le_refl _)]
  simp only [applyTok, Option.map_some']
  rw [decode_line 'E' 'X' 'S' StateToken.exsTok (intToChars c.exstat) _ _ _ _ (by decide)
    (by decide) (by decide) (intToChars_noNl c.exstat) (le_refl _)]
  simp only [applyTok, Option.map_some']
  rw [decode_line 'A' 'C' ' ' StateToken.actionTok (actionName c.action) _ _ _ _ (by decide)
    (by decide) (by decide) (actionName_noNl c.action) (le_refl _)]
  simp only [applyTok, Option.map_some']
  rw [decode_line 'C' 'M' 'D' StateToken.processTok c.process _ _ _ _ (by decide)
    (by decide) (by decide) h3 (le_refl _)]
  simp only [applyTok, Option.map_some']
  rw [decode_line 'E' 'O' 'R' StateToken.eorTok [] _ _ _ _ (by decide)
    (by decide) (by decide) (by simp) (le_refl _)]
  simp only [applyTok]
  cases hrun : c.flags.running <;> cases hdem : c.flags.demand <;>
    cases hxec : c.flags.xecuted <;> cases hwait : c.flags.waiting <;>
    simp [newDecChild, Child.new, decodedChild, ChildFlags.empty,
      applyFlag_RU, applyFlag_DE, applyFlag_XD, applyFlag_WT,
      parseInt_intToChars, fromStr_actionName, hrun, hdem, hxec, hwait]

/-- Decoding the encoded family appends the decoded children in order. -/
theorem decode_encode_children (cs : List Child) (rest : List Char) (res : DecodeRes)
    (h : ∀ c ∈ cs, NoNl c.id ∧ NoNl c.rlevel ∧ NoNl c.process) :
    decodeLoop ((encode_children cs rest).length) (encode_children cs rest) res none =
      decodeLoop rest.length rest { res with entries := res.entries ++ cs.map decodedChild }
        none := by
  induction cs generalizing res with
  | nil => simp [encode_children]
  | cons c cs ih =>
    rw [encode_children]
    rw [decode_encode_child c _ res (h c (List.mem_cons_self c cs)).1
      (h c (List.mem_cons_self c cs)).2.1 (h c (List.mem_cons_self c cs)).2.2]
    rw [ih _ (fun x hx => h x (List.mem_cons_of_mem c hx))]
    simp [List.append_assoc]

/-- The `END` line stops the decode loop. -/
theorem decode_end (res : DecodeRes) (cur : Option Child) :
    decodeLoop ((sline ['E', 'N', 'D'] [] []).length) (sline ['E', 'N', 'D'] [] []) res cur =
      res := rfl

/-- The boolean wire encoding round-trips. -/
theorem boolVal_boolChar (b : Bool) : boolVal (boolChar b) = b := by
  cases b <;> decide

/-- Every character of the list is ASCII (the `List Char` embedding of the
byte stream is exact for such strings). -/
def AsciiOnly (l : List Char) : Prop := ∀ x ∈ l, x.toNat < 128

/-- Well-formed child for state transfer: newline-free, ASCII id, runlevels
and command. -/
def WFChild (c : Child) : Prop :=
  NoNl c.id ∧ NoNl c.rlevel ∧ NoNl c.process ∧
    AsciiOnly c.id ∧ AsciiOnly c.rlevel ∧ AsciiOnly c.process

/-- Well-formed state for state transfer: well-formed children and
newline-free ASCII runlevel characters. -/
def WFState (st : InitState) : Prop :=
  (∀ c ∈ st.family, WFChild c) ∧ st.curlevel ≠ '\n' ∧ st.prevlevel ≠ '\n' ∧
    st.curlevel.toNat < 128 ∧ st.prevlevel.toNat < 128

set_option maxHeartbeats 2000000 in
/-- C1 (amended): for every well-formed table and globals, decoding the
`send_state` stream reproduces every live entry in order with identical id,
runlevels, action, pid and exit status, identical RUNNING/DEMAND/XECUTED/
WAITING flags (KILLME, FAILING, ZOMBIE are not in `FLAG_MAPPINGS` and are
lost), and the globals current/previous runlevel, pending-signal indicator,
wtmp/utmp reboot flags, sleep time and boot-done flag (the wtmp/utmp
runlevel flags are never written and revert to defaults). -/
theorem send_state_decode_roundtrip (gs : Bool) (st : InitState) (h : WFState st) :
    (decode (send_state gs st)).entries = st.family.map decodedChild ∧
    (decode (send_state gs st)).curlevel = st.curlevel ∧
    (decode (send_state gs st)).prevlevel = st.prevlevel ∧
    (decode (send_state gs st)).runlevel = st.curlevel ∧
    (decode (send_state gs st)).gotSign = gs ∧
    (decode (send_state gs st)).wrote_wtmp_reboot = st.wrote_wtmp_reboot ∧
    (decode (send_state gs st)).wrote_utmp_reboot = st.wrote_utmp_reboot ∧
    (decode (send_state gs st)).sleep_time = st.sleep_time ∧
    (decode (send_state gs st)).did_boot = st.did_boot := by
  obtain ⟨hfam, hcur, hprev, -, -⟩ := h
  have hc1 : ∀ x ∈ [st.curlevel], x ≠ '\n' := by
    intro x hx
    simp only [List.mem_singleton] at hx
    subst hx
    exact hcur
  have hp1 : ∀ x ∈ [st.prevlevel], x ≠ '\n' := by
    intro x hx
    simp only [List.mem_singleton] at hx
    subst hx
    exact hprev
  have hbool : ∀ b : Bool, ∀ x ∈ boolChar b, x ≠ '\n' := by
    intro b
    cases b <;> decide
  have hmain : decode (send_state gs st) =
      { initDecodeRes with
          version := VERSION
          runlevel := st.curlevel
          curlevel := st.curlevel
          prevlevel := st.prevlevel
          gotSign := gs
          wrote_wtmp_reboot := st.wrote_wtmp_reboot
          wrote_utmp_reboot := st.wrote_utmp_reboot
          sleep_time := st.sleep_time
          did_boot := st.did_boot
          entries := st.family.map decodedChild } := by
    rw [decode, send_state]
    rw [decode_line 'V' 'E' 'R' StateToken.verTok VERSION _ _ _ _ (by decide) (by decide)
      (by decide) (by decide) (le_refl _)]
    simp only [applyTok]
    rw [decode_line '-' 'R' 'L' StateToken.runlevelTok [st.curlevel] _ _ _ _ (by decide)
      (by decide) (by decide) hc1 (le_refl _)]
    simp only [applyTok]
    rw [decode_line '-' 'T' 'L' StateToken.thisLevelTok [st.curlevel] _ _ _ _ (by decide)
      (by decide) (by decide) hc1 (le_refl _)]
    simp only [applyTok]
    rw [decode_line '-' 'P' 'L' StateToken.prevLevelTok [st.prevlevel] _ _ _ _ (by decide)
      (by decide) (by decide) hp1 (le_refl _)]
    simp only [applyTok]
    rw [decode_line '-' 'S' 'I' StateToken.gotSignTok (boolChar gs) _ _ _ _ (by decide)
      (by decide) (by decide) (hbool gs) (le_refl _)]
    simp only [applyTok]
    rw [decode_line '-' 'W' 'R' StateToken.wroteWtmpRebootTok (boolChar st.wrote_wtmp_reboot)
      _ _ _ _ (by decide) (by decide) (by decide) (hbool _) (le_refl _)]
    simp only [applyTok]
    rw [decode_line '-' 'W' 'U' StateToken.wroteUtmpRebootTok (boolChar st.wrote_utmp_reboot)
      _ _ _ _ (by decide) (by decide) (by decide) (hbool _) (le_refl _)]
    simp only [applyTok]
    rw [decode_line '-' 'S' 'T' StateToken.slTimeTok (natToChars st.sleep_time)
      _ _ _ _ (by decide) (by decide) (by decide) (natToChars_noNl _) (le_refl _)]
    simp only [applyTok]
    rw [decode_line '-' 'D' 'B' StateToken.didBootTok (boolChar st.did_boot)
      _ _ _ _ (by decide) (by decide) (by decide) (hbool _) (le_refl _)]
    simp only [applyTok]
    rw [decode_encode_children st.family _ _
      (fun c hc => ⟨(hfam c hc).1, (hfam c hc).2.1, (hfam c hc).2.2.1⟩)]
    rw [decode_end]
    simp [initDecodeRes, boolVal_boolChar, parseNat_natToChars]
  rw [hmain]
  exact ⟨rfl, rfl, rfl, rfl, rfl, rfl, rfl, rfl, rfl⟩

/-- A concrete well-formed running child for the round-trip witness. -/
def wChild : Child :=
  { flags := { ChildFlags.empty with running := true, waiting := true }
    exstat := 0
    pid := 7
    tm := 3
    count := 1
    id := "w1".toList
    rlevel := "23".toList
    action := .respawn
    process := "/bin/w".toList }

/-- A concrete well-formed state for the round-trip witness. -/
def wState : InitState :=
  { InitState.new with family := [wChild], curlevel := '2' }

/-- C1 witness: the round trip evaluated on a concrete one-entry table. -/
theorem send_state_decode_roundtrip_witness :
    WFState wState ∧
      ((decode (send_state false wState)).entries = wState.family.map decodedChild ∧
       (decode (send_state false wState)).curlevel = wState.curlevel ∧
       (decode (send_state false wState)).prevlevel = wState.prevlevel ∧
       (decode (send_state false wState)).runlevel = wState.curlevel ∧
       (decode (send_state false wState)).gotSign = false ∧
       (decode (send_state false wState)).wrote_wtmp_reboot = wState.wrote_wtmp_reboot ∧
       (decode (send_state false wState)).wrote_utmp_reboot = wState.wrote_utmp_reboot ∧
       (decode (send_state false wState)).sleep_time = wState.sleep_time ∧
       (decode (send_state false wState)).did_boot = wState.did_boot) :=
  ⟨by unfold WFState WFChild NoNl AsciiOnly; decide,
   send_state_decode_roundtrip false wState (by unfold WFState WFChild NoNl AsciiOnly; decide)⟩

/-- A child with FAILING set, exhibiting the flag loss. -/
def cChild : Child :=
  { flags := { ChildFlags.empty with running := true, failing := true }
    exstat := 0
    pid := 9
    tm := 0
    count := 0
    id := "c1".toList
    rlevel := "2".toList
    action := .respawn
    process := "/bin/c".toList }

/-- A state whose child is FAILING and whose wtmp-runlevel flag is false. -/
def cState : InitState :=
  { InitState.new with family := [cChild], wrote_wtmp_rlevel := false }

/-- C1 counterexample to the claim as stated: a FAILING entry comes back
with FAILING clear, and a false `wrote_wtmp_rlevel` comes back true, so the
flags and globals are not identical after the round trip. -/
theorem send_state_decode_loses_flags :
    cState.family.map (fun e => e.flags.failing) = [true] ∧
    (decode (send_state false cState)).entries.map (fun e => e.flags.failing) = [false] ∧
    cState.wrote_wtmp_rlevel = false ∧
    (decode (send_state false cState)).wrote_wtmp_rlevel = true := by
  refine ⟨rfl, ?_, rfl, ?_⟩ <;> decide

/-- C5: on every input stream, an unrecognized leading token — returned by
the src `get_cmd` as `Eof` — causes only that line's remainder to be
discarded (the src `get_void` consumes up to and including the newline) and
decoding continues with the next line, with the result and in-progress
entry decoded so far intact; end of stream — an exhausted stream with no
end token, or a truncated final line in which `get_void` finds no newline —
terminates decoding without an error, leaving the result decoded so far
usable. -/
theorem decode_skip_unknown_spec :
    (∀ (a b c : Char) (junk rest : List Char) (f : Nat) (res : DecodeRes)
        (cur : Option Child),
      lookupCmd [a, b, c] = StateToken.eofTok → (∀ x ∈ junk, x ≠ '\n') →
      (a :: b :: c :: (junk ++ '\n' :: rest)).length ≤ f →
      decodeLoop f (a :: b :: c :: (junk ++ '\n' :: rest)) res cur =
        decodeLoop rest.length rest res cur) ∧
    (∀ (f : Nat) (res : DecodeRes) (cur : Option Child),
      decodeLoop f [] res cur = res) ∧
    (∀ (a b c : Char) (junk : List Char) (f : Nat) (res : DecodeRes) (cur : Option Child),
      lookupCmd [a, b, c] = StateToken.eofTok → (∀ x ∈ junk, x ≠ '\n') →
      decodeLoop f (a :: b :: c :: junk) res cur = res) := by
  refine ⟨?_, ?_, ?_⟩
  · intro a b c junk rest f res cur ht hj hf
    have hflen : junk.length + rest.length + 4 ≤ f := by
      simp [List.length_append] at hf
      omega
    obtain ⟨f1, rfl⟩ := Nat.exists_eq_succ_of_ne_zero (show f ≠ 0 by omega)
    rw [decodeLoop]
    simp only [get_cmd, ht]
    rw [get_void_skips_line junk rest hj]
    exact decodeLoop_fuel rest.length rest f1 rest.length res cur rfl (by omega) (by omega)
  · intro f res cur
    exact decodeLoop_nil f res cur
  · intro a b c junk f res cur ht hj
    cases f with
    | zero => rfl
    | succ f1 =>
      rw [decodeLoop]
      simp only [get_cmd, ht]
      rw [get_void_no_nl junk hj]

/-- C5 witness: a `ZZZ` junk line in front of an `END` line is skipped and
decoding continues at the `END` line; the empty stream and a truncated
final `ZZZ` line both end decoding with the result intact. -/
theorem decode_skip_unknown_spec_witness :
    lookupCmd ['Z', 'Z', 'Z'] = StateToken.eofTok ∧
    decodeLoop 12 ('Z' :: 'Z' :: 'Z' :: ("junk".toList ++ '\n' :: "END\n".toList))
        initDecodeRes none =
      decodeLoop ("END\n".toList).length ("END\n".toList) initDecodeRes none ∧
    decodeLoop 7 [] initDecodeRes none = initDecodeRes ∧
    decodeLoop 9 ('Z' :: 'Z' :: 'Z' :: "junk".toList) initDecodeRes none = initDecodeRes :=
  ⟨by decide,
   decode_skip_unknown_spec.1 'Z' 'Z' 'Z' ("junk".toList) ("END\n".toList) 12
     initDecodeRes none (by decide) (by decide) (by decide),
   decode_skip_unknown_spec.2.1 7 initDecodeRes none,
   decode_skip_unknown_spec.2.2 'Z' 'Z' 'Z' ("junk".toList) 9 initDecodeRes none
     (by decide) (by decide)⟩
